import Mathlib

/-!
Verification development for the arsenal backtesting harness.

The definitions below are shallow embeddings of the Python sources:
* `UtilStock` embeds `util/stock.py` (corporate-action arithmetic, lot rounding);
* `PortfolioPosition` embeds the trading book of `strats/book.py`;
* the execution engines embed `execution/backtestEngine.py` and
  `execution/stockBacktestEngine.py`;
* the publisher state machine embeds `datafeed/stockDataPublisher.py`;
* the replay trace embeds `datafeed/backtestEngine.py` (`connect`);
* the rebalancing buckets and order generation embed
  `StockStrategy.adjustPosition` of `strats/stockStrategy.py`.

Numeric conventions: Python floats are modelled as exact rationals, integer
truncation `int(x)` as truncation toward zero, and the fixed-width date and
timestamp strings (format YYYYMMDD / YYYYMMDDHHMM, compared lexicographically
in the source, which on zero-padded digit strings is numeric order) as natural
numbers.
-/

namespace Arsenal

/-- Truncation of a rational toward zero, the behaviour of Python `int( x )`
applied to a float. -/
def ratTrunc (q : ℚ) : ℤ := q.num.tdiv q.den

theorem ratTrunc_intCast (n : ℤ) : ratTrunc (n : ℚ) = n := by
  simp [ratTrunc, Rat.num_intCast, Rat.den_intCast, Int.tdiv_one]

theorem ratTrunc_natCast (n : ℕ) : ratTrunc (n : ℚ) = n := by
  have h := ratTrunc_intCast (n : ℤ)
  simpa using h

namespace UtilStock

/-- Embedding of `util.stock.adjustPrice( position, cash, dividend10, right10,
rightIssue10, rightIssuePrice )`.  `position` is the held volume (a pandas
float in the source), `cash` the cash balance.  Returns the pair
`( newPosition, newCash )`.  Mirrors the source line by line:
`unit = int( position / 10 )`, dividend credit `dividend10 * unit`, bonus
shares `int( unit * right10 )`, and the all-or-nothing rights subscription
guarded by `cash > rightIssueVolume * rightIssuePrice` where `cash` is the
function argument, i.e. the balance before the dividend credit. -/
def adjustPrice (position cash : ℚ) (dividend10 right10 rightIssue10 rightIssuePrice : ℚ) :
    ℚ × ℚ :=
  let unit : ℤ := ratTrunc (position / 10)
  let newCash : ℚ := cash + dividend10 * (unit : ℚ)
  let newPosition : ℚ := position + ((ratTrunc ((unit : ℚ) * right10) : ℤ) : ℚ)
  let rightIssueVolume : ℤ := ratTrunc (rightIssue10 * (unit : ℚ))
  if cash > (rightIssueVolume : ℚ) * rightIssuePrice then
    (newPosition + (rightIssueVolume : ℚ), newCash - (rightIssueVolume : ℚ) * rightIssuePrice)
  else
    (newPosition, newCash)

/-- Embedding of `util.stock.roundVolume( volume, lotSize=100 )`:
`int( volume / lotSize ) * lotSize`. -/
def roundVolume (volume : ℚ) (lotSize : ℚ := 100) : ℚ :=
  ((ratTrunc (volume / lotSize) : ℤ) : ℚ) * lotSize

end UtilStock

/-- One row of the book DataFrame of `strats/book.py`: the average `Price` and
the held `Volume` of an instrument (both pandas floats in the source). -/
structure BookPos where
  price : ℚ
  volume : ℚ
  deriving DecidableEq

/-- Embedding of `strats.book.PortfolioPosition`: a cash balance plus the book
DataFrame, modelled as an association list from `SecID` to its row, in index
order. -/
structure PortfolioPosition where
  cash : ℚ
  book : List (String × BookPos)
  deriving DecidableEq

namespace PortfolioPosition

/-- Lookup of a row by `SecID`, the embedding of `book.ix[ secId ]` guarded by
`secId in position.index` (the first row carrying the label, `none` when the
label is absent). -/
def posLookup (book : List (String × BookPos)) (secId : String) : Option BookPos :=
  (book.find? (fun e => e.1 == secId)).map (fun e => e.2)

/-- Embedding of `PortfolioPosition.getStocksInBook`: the labels of the book
index. -/
def getStocksInBook (b : PortfolioPosition) : List String := b.book.map (fun e => e.1)

/-- Embedding of `PortfolioPosition.getPosition( secId )`: the held volume of
the instrument (`0` stands for the `KeyError` case, which callers avoid). -/
def getPosition (b : PortfolioPosition) (secId : String) : ℚ :=
  ((posLookup b.book secId).map (fun p => p.volume)).getD 0

/-- Embedding of `PortfolioPosition.isCashEnough( price, volume, commision )`:
`cash > price * volume + commision`. -/
def isCashEnough (b : PortfolioPosition) (price volume commision : ℚ) : Prop :=
  b.cash > price * volume + commision

/-- Embedding of `PortfolioPosition.addPosition( secId, price, volume,
commision )`.  When the instrument is already held its row is rewritten in
place with the volume-weighted average price and the summed volume; otherwise
a new row is appended.  Cash is debited by `commision + price * volume`
unconditionally. -/
def addPosition (b : PortfolioPosition) (secId : String) (price volume commision : ℚ) :
    PortfolioPosition :=
  let book :=
    match posLookup b.book secId with
    | some p =>
        b.book.map (fun e =>
          if e.1 == secId then
            (e.1, BookPos.mk ((p.price * p.volume + price * volume) / (p.volume + volume))
              (p.volume + volume))
          else e)
    | none => b.book ++ [(secId, BookPos.mk price volume)]
  PortfolioPosition.mk (b.cash - (commision + price * volume)) book

/-- Embedding of `PortfolioPosition.deletePosition( secId, price, volume,
commision )`.  A no-op when the instrument is not held.  Otherwise the row is
dropped, the sold amount is clamped to the held volume (`availVol`), cash is
credited with `availVol * price - commision`, and the row is appended back
only when a positive volume remains (the source drops the label and
conditionally re-assigns it, which appends at the end of the index). -/
def deletePosition (b : PortfolioPosition) (secId : String) (price volume commision : ℚ) :
    PortfolioPosition :=
  match posLookup b.book secId with
  | none => b
  | some p =>
      let availVol : ℚ := if volume > p.volume then p.volume else volume
      let newVol : ℚ := p.volume - availVol
      let dropped := b.book.filter (fun e => e.1 != secId)
      PortfolioPosition.mk (b.cash + availVol * price - commision)
        (if newVol > 0 then dropped ++ [(secId, BookPos.mk p.price newVol)] else dropped)

/-- Embedding of `PortfolioPosition.adjustPrice( secId, dividend10, right10,
rightIssue10, rightIssuePrice )`: when the instrument is held, its volume and
the cash balance are replaced by the pair computed by
`util.stock.adjustPrice`; the `KeyError` branch (instrument absent) only logs
and changes nothing. -/
def adjustPrice (b : PortfolioPosition) (secId : String)
    (dividend10 right10 rightIssue10 rightIssuePrice : ℚ) : PortfolioPosition :=
  match posLookup b.book secId with
  | none => b
  | some p =>
      let r := UtilStock.adjustPrice p.volume b.cash dividend10 right10 rightIssue10
        rightIssuePrice
      PortfolioPosition.mk r.2
        (b.book.map (fun e =>
          if e.1 == secId then (e.1, BookPos.mk p.price r.1) else e))

/-- Embedding of `PortfolioPosition.getTotalAsset( refPrices,
excludeSuspended )` as used by `adjustPosition`: cash plus the sum of
`volume * referencePrice` over the held instruments that carry a reference
price, skipping the suspended ones.  Pandas aligns the two series on the
index intersection (missing prices become NaN and are skipped by `sum`). -/
def getTotalAsset (b : PortfolioPosition) (refPrices : List (String × ℚ))
    (excludeSuspended : List String) : ℚ :=
  b.cash +
    ((b.book.filter (fun e =>
        (refPrices.map Prod.fst).elem e.1 && !(excludeSuspended.elem e.1))).map
      (fun e => e.2.volume * (((refPrices.find? (fun q => q.1 == e.1)).map Prod.snd).getD 0))).sum

theorem posLookup_map_const (book : List (String × BookPos)) (secId k : String)
    (newp : BookPos) :
    posLookup (book.map (fun e => if e.1 == secId then (e.1, newp) else e)) k
      = (posLookup book k).map (fun p => if k = secId then newp else p) := by
  unfold posLookup
  rw [List.find?_map]
  have hcomp : ((fun e : String × BookPos => e.1 == k) ∘
      (fun e => if e.1 == secId then (e.1, newp) else e))
      = (fun e : String × BookPos => e.1 == k) := by
    funext e
    by_cases h : e.1 = secId <;> simp [h]
  rw [hcomp]
  cases hfind : book.find? (fun e => e.1 == k) with
  | none => simp
  | some a =>
      have ha : a.1 = k := by
        have := List.find?_some hfind
        simpa using this
      by_cases h : k = secId <;> simp [ha, h]

theorem posLookup_append_single (l : List (String × BookPos)) (secId k : String) (p : BookPos) :
    posLookup (l ++ [(secId, p)]) k
      = match posLookup l k with
        | some q => some q
        | none => if k = secId then some p else none := by
  unfold posLookup
  rw [List.find?_append]
  cases hfind : l.find? (fun e => e.1 == k) with
  | none =>
      by_cases h : k = secId
      · subst h; simp [Option.or]
      · rw [List.find?_singleton]
        have hsk : ¬ secId = k := fun hc => h hc.symm
        have : ¬ (((secId, p).1 == k) = true) := by simp [hsk]
        simp [Option.or, this, h]
  | some a => simp [Option.or]

theorem posLookup_filter_ne (l : List (String × BookPos)) (secId k : String) :
    posLookup (l.filter (fun e => e.1 != secId)) k
      = if k = secId then none else posLookup l k := by
  induction l with
  | nil => simp [posLookup]
  | cons x t ih =>
      by_cases hxs : x.1 = secId
      · have h1 : (x :: t).filter (fun e => e.1 != secId) = t.filter (fun e => e.1 != secId) := by
          rw [List.filter_cons]
          simp [hxs]
        rw [h1, ih]
        by_cases hks : k = secId
        · simp [hks]
        · have hxk : ¬ x.1 = k := fun hc => hks (by rw [← hc, hxs])
          rw [if_neg hks, if_neg hks]
          simp [posLookup, hxk]
      · have h1 : (x :: t).filter (fun e => e.1 != secId)
            = x :: t.filter (fun e => e.1 != secId) := by
          rw [List.filter_cons]
          simp [hxs]
        rw [h1]
        by_cases hxk : x.1 = k
        · have hks : ¬ k = secId := fun hc => hxs (by rw [hxk, hc])
          rw [if_neg hks]
          simp [posLookup, hxk]
        · have ih2 := ih
          unfold posLookup at ih2 ⊢
          rw [List.find?_cons_of_neg _ (by simp [hxk]),
            List.find?_cons_of_neg _ (by simp [hxk])]
          exact ih2

end PortfolioPosition

/-- Claim C4: `addPosition` debits cash by `price * volume + commision`
unconditionally; an already-held instrument gets the volume-weighted average
price and the summed volume, a fresh instrument gets a new entry
`( price, volume )`; all other entries are untouched.  The closing conjunct is
the concrete scenario of the spec: starting cash 100000, buying 100 shares of
X at 50.00 with commission 10 yields entry ( 50.00, 100 ) and cash 94990. -/
theorem c4_addPosition_spec :
    (∀ (b : PortfolioPosition) (secId : String) (price volume commision : ℚ),
      (b.addPosition secId price volume commision).cash
          = b.cash - (price * volume + commision)
      ∧ PortfolioPosition.posLookup (b.addPosition secId price volume commision).book secId
          = some (match PortfolioPosition.posLookup b.book secId with
                  | some p => BookPos.mk
                      ((p.price * p.volume + price * volume) / (p.volume + volume))
                      (p.volume + volume)
                  | none => BookPos.mk price volume)
      ∧ ∀ k : String, k ≠ secId →
          PortfolioPosition.posLookup (b.addPosition secId price volume commision).book k
            = PortfolioPosition.posLookup b.book k)
    ∧ PortfolioPosition.addPosition (PortfolioPosition.mk 100000 []) "X" 50 100 10
        = PortfolioPosition.mk 94990 [("X", BookPos.mk 50 100)] := by
  constructor
  · intro b secId price volume commision
    refine ⟨by simp [PortfolioPosition.addPosition]; ring, ?entry, ?others⟩
    case entry =>
      cases hfind : PortfolioPosition.posLookup b.book secId with
      | some p =>
          simp only [PortfolioPosition.addPosition, hfind]
          rw [PortfolioPosition.posLookup_map_const]
          simp [hfind]
      | none =>
          simp only [PortfolioPosition.addPosition, hfind]
          rw [PortfolioPosition.posLookup_append_single]
          simp [hfind]
    case others =>
      intro k hk
      cases hfind : PortfolioPosition.posLookup b.book secId with
      | some p =>
          simp only [PortfolioPosition.addPosition, hfind]
          rw [PortfolioPosition.posLookup_map_const]
          cases hq : PortfolioPosition.posLookup b.book k <;> simp [hk]
      | none =>
          simp only [PortfolioPosition.addPosition, hfind]
          rw [PortfolioPosition.posLookup_append_single]
          cases hq : PortfolioPosition.posLookup b.book k <;> simp [hk]
  · simp [PortfolioPosition.addPosition, PortfolioPosition.posLookup]
    norm_num

/-- Witness for claim C4 discharging its hypotheses at a concrete input. -/
theorem c4_addPosition_witness :
    ("Y" : String) ≠ "X"
    ∧ PortfolioPosition.posLookup
        ((PortfolioPosition.mk 100000 []).addPosition "X" 50 100 10).book "Y"
      = PortfolioPosition.posLookup (PortfolioPosition.mk 100000 [] : PortfolioPosition).book "Y" :=
  ⟨by decide, (c4_addPosition_spec.1 (PortfolioPosition.mk 100000 []) "X" 50 100 10).2.2 "Y"
    (by decide)⟩

/-- Claim C5: `deletePosition` is total (the embedding is a plain function, the
source raises nowhere on this path): a no-op when the instrument is not held;
otherwise the sold amount is clamped to `min( volume, held )`, cash is
credited with `price * clamped - commision`, and the entry disappears exactly
when the remaining volume is zero.  The closing conjunct is the concrete
scenario of the spec: after the C4 buy, selling 100 shares of X at 55.00 with
commission 10 removes the entry and leaves cash 100480. -/
theorem c5_deletePosition_spec :
    (∀ (b : PortfolioPosition) (secId : String) (price volume commision : ℚ),
      match PortfolioPosition.posLookup b.book secId with
      | none => b.deletePosition secId price volume commision = b
      | some p =>
          (b.deletePosition secId price volume commision).cash
              = b.cash + min volume p.volume * price - commision
          ∧ PortfolioPosition.posLookup (b.deletePosition secId price volume commision).book secId
              = (if p.volume - min volume p.volume > 0 then
                  some (BookPos.mk p.price (p.volume - min volume p.volume)) else none)
          ∧ ∀ k : String, k ≠ secId →
              PortfolioPosition.posLookup (b.deletePosition secId price volume commision).book k
                = PortfolioPosition.posLookup b.book k)
    ∧ PortfolioPosition.deletePosition
        (PortfolioPosition.mk 94990 [("X", BookPos.mk 50 100)]) "X" 55 100 10
        = PortfolioPosition.mk 100480 [] := by
  constructor
  · intro b secId price volume commision
    cases hfind : PortfolioPosition.posLookup b.book secId with
    | none => simp [PortfolioPosition.deletePosition, hfind]
    | some p =>
        have hav : (if volume > p.volume then p.volume else volume) = min volume p.volume := by
          rcases le_or_lt volume p.volume with hle | hlt
          · rw [if_neg (not_lt.mpr hle), min_eq_left hle]
          · rw [if_pos hlt, min_eq_right hlt.le]
        refine ⟨?cash, ?entry, ?others⟩
        case cash => simp [PortfolioPosition.deletePosition, hfind, hav]
        case entry =>
          simp only [PortfolioPosition.deletePosition, hfind, hav]
          by_cases hrem : p.volume - min volume p.volume > 0
          · rw [if_pos hrem, if_pos hrem]
            rw [PortfolioPosition.posLookup_append_single,
              PortfolioPosition.posLookup_filter_ne]
            simp
          · rw [if_neg hrem, if_neg hrem]
            rw [PortfolioPosition.posLookup_filter_ne]
            simp
        case others =>
          intro k hk
          simp only [PortfolioPosition.deletePosition, hfind, hav]
          by_cases hrem : p.volume - min volume p.volume > 0
          · rw [if_pos hrem]
            rw [PortfolioPosition.posLookup_append_single,
              PortfolioPosition.posLookup_filter_ne]
            rw [if_neg hk]
            cases hq : PortfolioPosition.posLookup b.book k <;> simp [hk]
          · rw [if_neg hrem]
            rw [PortfolioPosition.posLookup_filter_ne]
            rw [if_neg hk]
  · simp [PortfolioPosition.deletePosition, PortfolioPosition.posLookup]
    norm_num

/-- Witness for claim C5 discharging its hypotheses at a concrete input. -/
theorem c5_deletePosition_witness :
    ("Y" : String) ≠ "X"
    ∧ PortfolioPosition.posLookup
        ((PortfolioPosition.mk 94990 [("X", BookPos.mk 50 100)]).deletePosition "X" 55 30 10).book
          "Y"
      = PortfolioPosition.posLookup
          (PortfolioPosition.mk 94990 [("X", BookPos.mk 50 100)] : PortfolioPosition).book "Y" := by
  refine ⟨by decide, ?_⟩
  have h := c5_deletePosition_spec.1 (PortfolioPosition.mk 94990 [("X", BookPos.mk 50 100)])
    "X" 55 30 10
  have hlook : PortfolioPosition.posLookup
      (PortfolioPosition.mk 94990 [("X", BookPos.mk 50 100)] : PortfolioPosition).book "X"
      = some (BookPos.mk 50 100) := by
    simp [PortfolioPosition.posLookup]
  rw [hlook] at h
  exact h.2.2 "Y" (by decide)

/-- Claim C3: `adjustPrice` on a held instrument credits the dividend
`dividend10 * unit` with `unit = int( volume / 10 )`, adds the bonus shares
`int( unit * right10 )`, and performs the all-or-nothing rights subscription
(volume `+ allot`, cash `- allot * rightIssuePrice` with
`allot = int( rightIssue10 * unit )`) exactly when the pre-dividend cash
balance is strictly greater than `allot * rightIssuePrice`; the stored average
price is untouched and other instruments are untouched.  On an instrument that
is not held the call changes nothing. -/
theorem c3_adjustPrice_spec :
    ∀ (b : PortfolioPosition) (secId : String) (dividend10 right10 rightIssue10
      rightIssuePrice : ℚ),
      match PortfolioPosition.posLookup b.book secId with
      | none => b.adjustPrice secId dividend10 right10 rightIssue10 rightIssuePrice = b
      | some p =>
          (b.adjustPrice secId dividend10 right10 rightIssue10 rightIssuePrice).cash
              = (if b.cash > ((ratTrunc (rightIssue10 * ((ratTrunc (p.volume / 10) : ℤ) : ℚ)) : ℤ)
                      : ℚ) * rightIssuePrice
                 then b.cash + dividend10 * ((ratTrunc (p.volume / 10) : ℤ) : ℚ)
                      - ((ratTrunc (rightIssue10 * ((ratTrunc (p.volume / 10) : ℤ) : ℚ)) : ℤ) : ℚ)
                        * rightIssuePrice
                 else b.cash + dividend10 * ((ratTrunc (p.volume / 10) : ℤ) : ℚ))
          ∧ PortfolioPosition.posLookup
                (b.adjustPrice secId dividend10 right10 rightIssue10 rightIssuePrice).book secId
              = some (BookPos.mk p.price
                  (if b.cash > ((ratTrunc (rightIssue10 * ((ratTrunc (p.volume / 10) : ℤ) : ℚ))
                        : ℤ) : ℚ) * rightIssuePrice
                   then p.volume
                        + ((ratTrunc (((ratTrunc (p.volume / 10) : ℤ) : ℚ) * right10) : ℤ) : ℚ)
                        + ((ratTrunc (rightIssue10 * ((ratTrunc (p.volume / 10) : ℤ) : ℚ)) : ℤ)
                            : ℚ)
                   else p.volume
                        + ((ratTrunc (((ratTrunc (p.volume / 10) : ℤ) : ℚ) * right10) : ℤ) : ℚ)))
          ∧ ∀ k : String, k ≠ secId →
              PortfolioPosition.posLookup
                  (b.adjustPrice secId dividend10 right10 rightIssue10 rightIssuePrice).book k
                = PortfolioPosition.posLookup b.book k := by
  intro b secId dividend10 right10 rightIssue10 rightIssuePrice
  cases hfind : PortfolioPosition.posLookup b.book secId with
  | none => simp [PortfolioPosition.adjustPrice, hfind]
  | some p =>
      refine ⟨?cash, ?entry, ?others⟩
      case cash =>
        simp only [PortfolioPosition.adjustPrice, hfind, UtilStock.adjustPrice]
        by_cases hbuy : b.cash > ((ratTrunc (rightIssue10 * ((ratTrunc (p.volume / 10) : ℤ) : ℚ))
            : ℤ) : ℚ) * rightIssuePrice
        · rw [if_pos hbuy, if_pos hbuy]
        · rw [if_neg hbuy, if_neg hbuy]
      case entry =>
        simp only [PortfolioPosition.adjustPrice, hfind, UtilStock.adjustPrice]
        rw [PortfolioPosition.posLookup_map_const]
        simp only [hfind]
        by_cases hbuy : b.cash > ((ratTrunc (rightIssue10 * ((ratTrunc (p.volume / 10) : ℤ) : ℚ))
            : ℤ) : ℚ) * rightIssuePrice
        · rw [if_pos hbuy, if_pos hbuy]
          simp
        · rw [if_neg hbuy, if_neg hbuy]
          simp
      case others =>
        intro k hk
        simp only [PortfolioPosition.adjustPrice, hfind]
        rw [PortfolioPosition.posLookup_map_const]
        cases hq : PortfolioPosition.posLookup b.book k <;> simp [hk]

/-- Witness for claim C3 discharging its hypotheses at a concrete input. -/
theorem c3_adjustPrice_witness :
    ("Y" : String) ≠ "X"
    ∧ PortfolioPosition.posLookup
        ((PortfolioPosition.mk 1000 [("X", BookPos.mk 50 100)]).adjustPrice "X" 7 1 2 3).book "Y"
      = PortfolioPosition.posLookup
          (PortfolioPosition.mk 1000 [("X", BookPos.mk 50 100)] : PortfolioPosition).book "Y" := by
  refine ⟨by decide, ?_⟩
  have h := c3_adjustPrice_spec (PortfolioPosition.mk 1000 [("X", BookPos.mk 50 100)]) "X" 7 1 2 3
  have hlook : PortfolioPosition.posLookup
      (PortfolioPosition.mk 1000 [("X", BookPos.mk 50 100)] : PortfolioPosition).book "X"
      = some (BookPos.mk 50 100) := by
    simp [PortfolioPosition.posLookup]
  rw [hlook] at h
  exact h.2.2 "Y" (by decide)

/-- Claim C10: the rights-issue affordability test of
`util.stock.adjustPrice` compares the pre-dividend cash balance, strictly,
against the full allotment cost: the allotment is bought exactly when
`cash > allot * rightIssuePrice` where `cash` is the balance before the same
call adds the dividend, so the dividend paid in the same adjustment can never
fund the purchase, and exact equality skips it.  The closing conjunct shows
this concretely: 10 shares, cash 100, dividend 50 per 10 shares, rights issue
10 per 10 shares at price 10 — the allotment cost is exactly 100, so nothing
is bought even though the post-dividend balance 150 would cover it. -/
theorem c10_rights_issue_pre_dividend :
    (∀ position cash dividend10 right10 rightIssue10 rightIssuePrice : ℚ,
      (cash > ((ratTrunc (rightIssue10 * ((ratTrunc (position / 10) : ℤ) : ℚ)) : ℤ) : ℚ)
          * rightIssuePrice
        ∧ UtilStock.adjustPrice position cash dividend10 right10 rightIssue10 rightIssuePrice
          = (position + ((ratTrunc (((ratTrunc (position / 10) : ℤ) : ℚ) * right10) : ℤ) : ℚ)
              + ((ratTrunc (rightIssue10 * ((ratTrunc (position / 10) : ℤ) : ℚ)) : ℤ) : ℚ),
             cash + dividend10 * ((ratTrunc (position / 10) : ℤ) : ℚ)
              - ((ratTrunc (rightIssue10 * ((ratTrunc (position / 10) : ℤ) : ℚ)) : ℤ) : ℚ)
                * rightIssuePrice))
      ∨ (cash ≤ ((ratTrunc (rightIssue10 * ((ratTrunc (position / 10) : ℤ) : ℚ)) : ℤ) : ℚ)
          * rightIssuePrice
        ∧ UtilStock.adjustPrice position cash dividend10 right10 rightIssue10 rightIssuePrice
          = (position + ((ratTrunc (((ratTrunc (position / 10) : ℤ) : ℚ) * right10) : ℤ) : ℚ),
             cash + dividend10 * ((ratTrunc (position / 10) : ℤ) : ℚ))))
    ∧ UtilStock.adjustPrice 10 100 50 0 10 10 = (10, 150) := by
  constructor
  · intro position cash dividend10 right10 rightIssue10 rightIssuePrice
    by_cases hbuy : cash > ((ratTrunc (rightIssue10 * ((ratTrunc (position / 10) : ℤ) : ℚ)) : ℤ)
        : ℚ) * rightIssuePrice
    · left
      refine ⟨hbuy, ?_⟩
      simp only [UtilStock.adjustPrice]
      rw [if_pos hbuy]
    · right
      refine ⟨not_lt.mp hbuy, ?_⟩
      simp only [UtilStock.adjustPrice]
      rw [if_neg hbuy]
  · have hunit : ratTrunc ((10 : ℚ) / 10) = 1 := by norm_num [ratTrunc]
    have hallot : ratTrunc ((10 : ℚ) * ((1 : ℤ) : ℚ)) = 10 := by norm_num [ratTrunc]
    have hbonus : ratTrunc (((1 : ℤ) : ℚ) * 0) = 0 := by norm_num [ratTrunc]
    simp only [UtilStock.adjustPrice, hunit, hallot, hbonus]
    norm_num

/-- Embedding of `execution.order.Order` as created by the strategies:
instrument, side, volume and price; `priceType` and `offset` are carried but
never read on the embedded paths. -/
structure Order where
  secId : String
  side : ℤ
  volume : ℚ
  price : ℚ
  priceType : ℤ := 0
  offset : Option ℤ := none
  deriving DecidableEq

namespace Order

/-- Side constant `Order.BUY = 1` of `execution/order.py`. -/
def BUY : ℤ := 1

/-- Side constant `Order.SELL = -1` of `execution/order.py`. -/
def SELL : ℤ := -1

/-- Side constant `Order.UNKNOWN = 0` of `execution/order.py`. -/
def UNKNOWN : ℤ := 0

end Order

/-- Embedding of `execution.order.SimpleOrderStatus`: every field defaults to
`None` in the source, hence the `Option` fields. -/
structure SimpleOrderStatus where
  orderStatus : Option ℕ
  secId : Option String
  executedPrice : Option ℚ
  commision : Option ℚ
  orderDirection : Option ℤ
  orderSize : Option ℚ
  deriving DecidableEq

namespace SimpleOrderStatus

/-- Status constant `SUBMITTED = 0`. -/
def SUBMITTED : ℕ := 0

/-- Status constant `CANCELLED = 1`. -/
def CANCELLED : ℕ := 1

/-- Status constant `EXECUTED = 2`. -/
def EXECUTED : ℕ := 2

end SimpleOrderStatus

/-- Error surfaced by the engines: the `Exception` raised by `queryOrder` for
an unrecognized order id (the message carries the id). -/
inductive EngineErr where
  | orderNotFound (orderId : ℕ) : EngineErr
  deriving DecidableEq

/-- Embedding of `execution.backtestEngine.BacktestExecutionEngine`: the
commission rate, the market impact in ticks, the reference data (`getTickSize`
and `getLotSize`, consumed as injected functions), the next order id, and the
`executedOrders` dict as an association list in insertion order. -/
structure BacktestExecutionEngine where
  commisionRate : ℚ
  marketImpact : ℚ
  tickSize : String → ℚ
  lotSize : String → ℚ
  nextId : ℕ
  executedOrders : List (ℕ × Order)

namespace BacktestExecutionEngine

/-- Embedding of `BacktestExecutionEngine.queryOrder( orderId )`: raises for
an unknown id, otherwise reports an EXECUTED status with
`effectivePrice = price + direction * tickSize * marketImpact` and
`commision = effectivePrice * size * lotSize * commisionRate`, where
`direction` is `1` when the side equals `BUY` and `-1` otherwise. -/
def queryOrder (e : BacktestExecutionEngine) (orderId : ℕ) :
    Except EngineErr SimpleOrderStatus :=
  match e.executedOrders.find? (fun p => p.1 == orderId) with
  | none => Except.error (EngineErr.orderNotFound orderId)
  | some p =>
      let orderObj := p.2
      let direction : ℤ := if orderObj.side = Order.BUY then 1 else -1
      let effectivePrice : ℚ :=
        orderObj.price + (direction : ℚ) * e.tickSize orderObj.secId * e.marketImpact
      let commision : ℚ :=
        effectivePrice * orderObj.volume * e.lotSize orderObj.secId * e.commisionRate
      Except.ok (SimpleOrderStatus.mk (some SimpleOrderStatus.EXECUTED) (some orderObj.secId)
        (some effectivePrice) (some commision) (some direction) (some orderObj.volume))

/-- Embedding of `BacktestExecutionEngine.cancelOrder( orderId )`: the source
returns `SimpleOrderStatus( orderStatus=EXECUTED )` unconditionally — it never
inspects the id and never raises. -/
def cancelOrder (e : BacktestExecutionEngine) (orderId : ℕ) :
    Except EngineErr SimpleOrderStatus :=
  Except.ok (SimpleOrderStatus.mk (some SimpleOrderStatus.EXECUTED) none none none none none)

/-- Embedding of `BacktestExecutionEngine.updateOrder`: unsupported, reports
the failure identifier `-1`. -/
def updateOrder (e : BacktestExecutionEngine) (orderId : ℕ) (o : Order) : ℤ := -1

/-- Embedding of `BacktestExecutionEngine.placeOrder( order, onOrderFilled )`:
the order gets id `nextId`, is recorded, and the status obtained from
`queryOrder` is passed synchronously to the callback; the triple returned is
(order id, new engine state, status delivered to the callback). -/
def placeOrder (e : BacktestExecutionEngine) (o : Order) :
    ℕ × BacktestExecutionEngine × Except EngineErr SimpleOrderStatus :=
  let orderId := e.nextId
  let e2 := BacktestExecutionEngine.mk e.commisionRate e.marketImpact e.tickSize e.lotSize
    (e.nextId + 1) (e.executedOrders ++ [(orderId, o)])
  (orderId, e2, queryOrder e2 orderId)

end BacktestExecutionEngine

/-- Embedding of
`execution.stockBacktestEngine.StockBacktestExecutionEngine`: as the general
engine but with the tick size hard-coded to `0.01` and no lot-size factor in
the commission. -/
structure StockBacktestExecutionEngine where
  commisionRate : ℚ
  marketImpact : ℚ
  nextId : ℕ
  executedOrders : List (ℕ × Order)
  deriving DecidableEq

namespace StockBacktestExecutionEngine

/-- Embedding of `StockBacktestExecutionEngine.queryOrder( orderId )`:
`effectivePrice = price + direction * 0.01 * marketImpact` and
`commision = effectivePrice * size * commisionRate`. -/
def queryOrder (e : StockBacktestExecutionEngine) (orderId : ℕ) :
    Except EngineErr SimpleOrderStatus :=
  match e.executedOrders.find? (fun p => p.1 == orderId) with
  | none => Except.error (EngineErr.orderNotFound orderId)
  | some p =>
      let orderObj := p.2
      let direction : ℤ := if orderObj.side = Order.BUY then 1 else -1
      let effectivePrice : ℚ :=
        orderObj.price + (direction : ℚ) * (1 / 100) * e.marketImpact
      let commision : ℚ := effectivePrice * orderObj.volume * e.commisionRate
      Except.ok (SimpleOrderStatus.mk (some SimpleOrderStatus.EXECUTED) (some orderObj.secId)
        (some effectivePrice) (some commision) (some direction) (some orderObj.volume))

/-- Embedding of `StockBacktestExecutionEngine.placeOrder`. -/
def placeOrder (e : StockBacktestExecutionEngine) (o : Order) :
    ℕ × StockBacktestExecutionEngine × Except EngineErr SimpleOrderStatus :=
  let orderId := e.nextId
  let e2 := StockBacktestExecutionEngine.mk e.commisionRate e.marketImpact
    (e.nextId + 1) (e.executedOrders ++ [(orderId, o)])
  (orderId, e2, queryOrder e2 orderId)

end StockBacktestExecutionEngine

/-- Counterexample for claim C2 as stated: on a fresh engine (no order ever
placed) `queryOrder( 5 )` does surface the unknown-order-id error, but
`cancelOrder( 5 )` does not — it silently returns an EXECUTED status, so not
every id-taking engine operation fails with NotFound. -/
theorem c2_cancel_counterexample :
    BacktestExecutionEngine.queryOrder
        (BacktestExecutionEngine.mk 0 0 (fun _ => 1 / 100) (fun _ => 1) 1 []) 5
      = Except.error (EngineErr.orderNotFound 5)
    ∧ BacktestExecutionEngine.cancelOrder
        (BacktestExecutionEngine.mk 0 0 (fun _ => 1 / 100) (fun _ => 1) 1 []) 5
      = Except.ok (SimpleOrderStatus.mk (some SimpleOrderStatus.EXECUTED)
          none none none none none) :=
  ⟨rfl, rfl⟩

/-- Claim C2 amended: `queryOrder` fails with the unknown-order-id error for
every id not present in the order book, while `cancelOrder` never inspects
the id and always returns an EXECUTED status — the unknown-order-id error is
surfaced by `queryOrder` but not by `cancelOrder`. -/
theorem c2_unknown_order_amended :
    (∀ (e : BacktestExecutionEngine) (oid : ℕ),
      e.executedOrders.find? (fun p => p.1 == oid) = none →
      e.queryOrder oid = Except.error (EngineErr.orderNotFound oid))
    ∧ (∀ (e : BacktestExecutionEngine) (oid : ℕ),
      e.cancelOrder oid
        = Except.ok (SimpleOrderStatus.mk (some SimpleOrderStatus.EXECUTED)
            none none none none none)) := by
  constructor
  · intro e oid h
    simp [BacktestExecutionEngine.queryOrder, h]
  · intro e oid
    rfl

/-- Witness for the amended claim C2 discharging its hypothesis at a concrete
input. -/
theorem c2_unknown_order_witness :
    (BacktestExecutionEngine.mk 0 0 (fun _ => (1 : ℚ) / 100) (fun _ => 1) 1
        [] : BacktestExecutionEngine).executedOrders.find? (fun p => p.1 == 5) = none
    ∧ BacktestExecutionEngine.queryOrder
        (BacktestExecutionEngine.mk 0 0 (fun _ => 1 / 100) (fun _ => 1) 1 []) 5
      = Except.error (EngineErr.orderNotFound 5) :=
  ⟨rfl, c2_unknown_order_amended.1
    (BacktestExecutionEngine.mk 0 0 (fun _ => 1 / 100) (fun _ => 1) 1 []) 5 rfl⟩

/-- Claim C6: every placed order is reported with
`effectivePrice = limitPrice + direction * tickSize * marketImpact`
(`direction = 1` for BUY, `-1` otherwise) and
`commission = effectivePrice * volume * lotSize * commisionRate`; the stock
variant hard-codes tick size `0.01` and lot size `1`.  The hypothesis is the
engine id invariant (all recorded ids below `nextId`), which every reachable
state satisfies.  The closing conjuncts are the concrete spec instances: with
tick 0.01, market impact 2 and price 10.00, a BUY fills at 10.02 and a SELL
at 9.98. -/
theorem c6_execution_price_spec :
    (∀ (e : BacktestExecutionEngine) (o : Order),
      (∀ p ∈ e.executedOrders, p.1 < e.nextId) →
      (e.placeOrder o).2.2
        = Except.ok (SimpleOrderStatus.mk (some SimpleOrderStatus.EXECUTED) (some o.secId)
            (some (o.price + (((if o.side = Order.BUY then (1 : ℤ) else -1) : ℤ) : ℚ)
              * e.tickSize o.secId * e.marketImpact))
            (some ((o.price + (((if o.side = Order.BUY then (1 : ℤ) else -1) : ℤ) : ℚ)
              * e.tickSize o.secId * e.marketImpact) * o.volume * e.lotSize o.secId
              * e.commisionRate))
            (some (if o.side = Order.BUY then 1 else -1)) (some o.volume)))
    ∧ (∀ (e : StockBacktestExecutionEngine) (o : Order),
      (∀ p ∈ e.executedOrders, p.1 < e.nextId) →
      (e.placeOrder o).2.2
        = Except.ok (SimpleOrderStatus.mk (some SimpleOrderStatus.EXECUTED) (some o.secId)
            (some (o.price + (((if o.side = Order.BUY then (1 : ℤ) else -1) : ℤ) : ℚ)
              * (1 / 100) * e.marketImpact))
            (some ((o.price + (((if o.side = Order.BUY then (1 : ℤ) else -1) : ℤ) : ℚ)
              * (1 / 100) * e.marketImpact) * o.volume * e.commisionRate))
            (some (if o.side = Order.BUY then 1 else -1)) (some o.volume)))
    ∧ ((StockBacktestExecutionEngine.mk 0 2 1 []).placeOrder
          (Order.mk "A" Order.BUY 100 10 0 none)).2.2
        = Except.ok (SimpleOrderStatus.mk (some SimpleOrderStatus.EXECUTED) (some "A")
            (some 10.02) (some 0) (some 1) (some 100))
    ∧ ((StockBacktestExecutionEngine.mk 0 2 1 []).placeOrder
          (Order.mk "A" Order.SELL 100 10 0 none)).2.2
        = Except.ok (SimpleOrderStatus.mk (some SimpleOrderStatus.EXECUTED) (some "A")
            (some 9.98) (some 0) (some (-1)) (some 100)) := by
  refine ⟨?gen, ?stock, ?buy, ?sell⟩
  case gen =>
    intro e o h
    have hnone : e.executedOrders.find? (fun p => p.1 == e.nextId) = none := by
      rw [List.find?_eq_none]
      intro p hp
      simp
      exact Nat.ne_of_lt (h p hp)
    simp only [BacktestExecutionEngine.placeOrder, BacktestExecutionEngine.queryOrder,
      List.find?_append, hnone, List.find?_singleton]
    simp
  case stock =>
    intro e o h
    have hnone : e.executedOrders.find? (fun p => p.1 == e.nextId) = none := by
      rw [List.find?_eq_none]
      intro p hp
      simp
      exact Nat.ne_of_lt (h p hp)
    simp only [StockBacktestExecutionEngine.placeOrder, StockBacktestExecutionEngine.queryOrder,
      List.find?_append, hnone, List.find?_singleton]
    simp
  case buy =>
    simp only [StockBacktestExecutionEngine.placeOrder, StockBacktestExecutionEngine.queryOrder]
    norm_num [Order.BUY]
  case sell =>
    simp only [StockBacktestExecutionEngine.placeOrder, StockBacktestExecutionEngine.queryOrder]
    norm_num [Order.BUY, Order.SELL]

/-- Witness for claim C6 discharging its invariant hypothesis at a concrete
input. -/
theorem c6_execution_price_witness :
    (∀ p ∈ (StockBacktestExecutionEngine.mk 0 2 1 []
        : StockBacktestExecutionEngine).executedOrders, p.1 < 1)
    ∧ ((StockBacktestExecutionEngine.mk 0 2 1 []).placeOrder
          (Order.mk "A" Order.BUY 100 10 0 none)).2.2
        = Except.ok (SimpleOrderStatus.mk (some SimpleOrderStatus.EXECUTED) (some "A")
            (some (10 + (((if Order.BUY = Order.BUY then (1 : ℤ) else -1) : ℤ) : ℚ)
              * (1 / 100) * 2))
            (some ((10 + (((if Order.BUY = Order.BUY then (1 : ℤ) else -1) : ℤ) : ℚ)
              * (1 / 100) * 2) * 100 * 0))
            (some (if Order.BUY = Order.BUY then 1 else -1)) (some 100)) :=
  ⟨by simp, c6_execution_price_spec.2.1 (StockBacktestExecutionEngine.mk 0 2 1 [])
    (Order.mk "A" Order.BUY 100 10 0 none) (by simp)⟩

/-- Error raised by the publisher: `removeSubscriber` raises without an id in
the message, `notify` raises carrying the id. -/
inductive PubErr where
  | removeNotFound : PubErr
  | notifyNotFound (subscriberId : ℕ) : PubErr
  deriving DecidableEq

/-- Embedding of the subscriber bookkeeping of
`datafeed.stockDataPublisher.StockDataPublisher`: the `nextId` counter and the
keys of the `subscribers` dict in insertion order.  (The `topicsToSubscribers`
index and the subscriber objects themselves play no role in the id life
cycle.) -/
structure StockDataPublisher where
  nextId : ℕ
  subscribers : List ℕ
  deriving DecidableEq

namespace StockDataPublisher

/-- Initial publisher state: `nextId = 1`, empty subscriber dict. -/
def init : StockDataPublisher := StockDataPublisher.mk 1 []

/-- Embedding of `addSubscriber( subscriber )`: a non-null subscriber receives
id `nextId`, the counter is incremented and the id recorded; a null
subscriber leaves the state unchanged and `None` is returned. -/
def addSubscriber (p : StockDataPublisher) (isNull : Bool) :
    Option ℕ × StockDataPublisher :=
  if isNull then (none, p)
  else (some p.nextId, StockDataPublisher.mk (p.nextId + 1) (p.subscribers ++ [p.nextId]))

/-- Embedding of `removeSubscriber( subscriberId )`: raises when the id is
unknown, otherwise pops the id from the dict (`nextId` is not decremented). -/
def removeSubscriber (p : StockDataPublisher) (sid : ℕ) :
    Except PubErr StockDataPublisher :=
  if sid ∈ p.subscribers then
    Except.ok (StockDataPublisher.mk p.nextId (p.subscribers.erase sid))
  else Except.error PubErr.removeNotFound

/-- Embedding of `notify( subscriberId, data )`: invokes the subscriber when
the id is registered, raises carrying the id otherwise. -/
def notify (p : StockDataPublisher) (sid : ℕ) : Except PubErr Unit :=
  if sid ∈ p.subscribers then Except.ok () else Except.error (PubErr.notifyNotFound sid)

end StockDataPublisher

/-- A call in a subscriber-management history: an `addSubscriber` (with or
without a null argument) or a `removeSubscriber`. -/
inductive PubOp where
  | add (isNull : Bool) : PubOp
  | remove (sid : ℕ) : PubOp

/-- State after one publisher call (a failed `removeSubscriber` raises and
leaves the state unchanged). -/
def pubApply (p : StockDataPublisher) : PubOp → StockDataPublisher
  | PubOp.add isNull => (p.addSubscriber isNull).2
  | PubOp.remove sid =>
      match p.removeSubscriber sid with
      | Except.ok p2 => p2
      | Except.error _ => p

/-- State after a history of publisher calls. -/
def pubRun (p : StockDataPublisher) (ops : List PubOp) : StockDataPublisher :=
  ops.foldl pubApply p

/-- The ids handed out by the `addSubscriber` calls of a history, in call
order (null adds return `None` and contribute nothing). -/
def pubReturnedIds : StockDataPublisher → List PubOp → List ℕ
  | _, [] => []
  | p, op :: rest =>
      let ids := pubReturnedIds (pubApply p op) rest
      match op with
      | PubOp.add isNull =>
          match (p.addSubscriber isNull).1 with
          | some i => i :: ids
          | none => ids
      | PubOp.remove _ => ids

theorem pubApply_nextId_le (p : StockDataPublisher) (op : PubOp) :
    p.nextId ≤ (pubApply p op).nextId := by
  cases op with
  | add isNull =>
      cases isNull <;> simp [pubApply, StockDataPublisher.addSubscriber]
  | remove sid =>
      simp only [pubApply, StockDataPublisher.removeSubscriber]
      by_cases h : sid ∈ p.subscribers <;> simp [h]

theorem pubReturnedIds_lower (ops : List PubOp) (p : StockDataPublisher) :
    ∀ i ∈ pubReturnedIds p ops, p.nextId ≤ i := by
  induction ops generalizing p with
  | nil => simp [pubReturnedIds]
  | cons op rest ih =>
      intro i hi
      have hstep := pubApply_nextId_le p op
      cases op with
      | add isNull =>
          cases isNull with
          | true =>
              simp [pubReturnedIds, StockDataPublisher.addSubscriber] at hi
              exact le_trans hstep (ih (pubApply p (PubOp.add true)) i hi)
          | false =>
              simp [pubReturnedIds, StockDataPublisher.addSubscriber] at hi
              rcases hi with hi | hi
              · exact le_of_eq hi.symm
              · exact le_trans hstep (ih (pubApply p (PubOp.add false)) i hi)
      | remove sid =>
          simp [pubReturnedIds] at hi
          exact le_trans hstep (ih (pubApply p (PubOp.remove sid)) i hi)

theorem pubReturnedIds_pairwise (ops : List PubOp) (p : StockDataPublisher) :
    (pubReturnedIds p ops).Pairwise (fun a b => a < b) := by
  induction ops generalizing p with
  | nil => simp [pubReturnedIds]
  | cons op rest ih =>
      cases op with
      | add isNull =>
          cases isNull with
          | true =>
              have h := ih (pubApply p (PubOp.add true))
              simpa [pubReturnedIds, StockDataPublisher.addSubscriber] using h
          | false =>
              simp only [pubReturnedIds, StockDataPublisher.addSubscriber, if_neg Bool.false_ne_true]
              refine List.Pairwise.cons ?_ (ih (pubApply p (PubOp.add false)))
              intro i hi
              have hlow := pubReturnedIds_lower rest (pubApply p (PubOp.add false)) i hi
              have hnext : (pubApply p (PubOp.add false)).nextId = p.nextId + 1 := by
                simp [pubApply, StockDataPublisher.addSubscriber]
              omega
      | remove sid =>
          have h := ih (pubApply p (PubOp.remove sid))
          simpa [pubReturnedIds] using h

theorem pubApply_invariant (p : StockDataPublisher) (op : PubOp)
    (hlt : ∀ i ∈ p.subscribers, i < p.nextId) (hnd : p.subscribers.Nodup) :
    (∀ i ∈ (pubApply p op).subscribers, i < (pubApply p op).nextId)
    ∧ (pubApply p op).subscribers.Nodup := by
  cases op with
  | add isNull =>
      cases isNull with
      | true => exact ⟨hlt, hnd⟩
      | false =>
          constructor
          · intro i hi
            simp [pubApply, StockDataPublisher.addSubscriber] at hi ⊢
            rcases hi with hi | hi
            · exact Nat.lt_succ_of_lt (hlt i hi)
            · omega
          · simp only [pubApply, StockDataPublisher.addSubscriber, if_neg Bool.false_ne_true]
            rw [List.nodup_append]
            refine ⟨hnd, List.nodup_singleton _, ?_⟩
            intro a ha hb
            simp at hb
            subst hb
            exact absurd (hlt _ ha) (lt_irrefl _)
  | remove sid =>
      simp only [pubApply, StockDataPublisher.removeSubscriber]
      by_cases h : sid ∈ p.subscribers
      · rw [if_pos h]
        constructor
        · intro i hi
          exact hlt i (List.mem_of_mem_erase hi)
        · exact hnd.erase sid
      · rw [if_neg h]
        exact ⟨hlt, hnd⟩

theorem pubRun_invariant (ops : List PubOp) (p : StockDataPublisher)
    (hlt : ∀ i ∈ p.subscribers, i < p.nextId) (hnd : p.subscribers.Nodup) :
    (∀ i ∈ (pubRun p ops).subscribers, i < (pubRun p ops).nextId)
    ∧ (pubRun p ops).subscribers.Nodup := by
  induction ops generalizing p with
  | nil => exact ⟨hlt, hnd⟩
  | cons op rest ih =>
      have h := pubApply_invariant p op hlt hnd
      simpa [pubRun] using ih (pubApply p op) h.1 h.2

/-- Claim C8: across every history of `addSubscriber` / `removeSubscriber`
calls starting from a fresh publisher, the ids returned by the non-null
`addSubscriber` calls are strictly increasing (hence never reused), and a
successful `removeSubscriber( id )` leaves a state in which `notify( id, _ )`
raises the unknown-subscriber error. -/
theorem c8_subscriber_ids :
    (∀ ops : List PubOp,
      (pubReturnedIds StockDataPublisher.init ops).Pairwise (fun a b => a < b))
    ∧ (∀ (ops : List PubOp) (sid : ℕ) (p2 : StockDataPublisher),
      (pubRun StockDataPublisher.init ops).removeSubscriber sid = Except.ok p2 →
      p2.notify sid = Except.error (PubErr.notifyNotFound sid)) := by
  constructor
  · intro ops
    exact pubReturnedIds_pairwise ops StockDataPublisher.init
  · intro ops sid p2 hok
    have hinv := pubRun_invariant ops StockDataPublisher.init
      (by simp [StockDataPublisher.init]) (by simp [StockDataPublisher.init])
    simp only [StockDataPublisher.removeSubscriber] at hok
    by_cases h : sid ∈ (pubRun StockDataPublisher.init ops).subscribers
    · rw [if_pos h] at hok
      have hp2 : p2.subscribers = (pubRun StockDataPublisher.init ops).subscribers.erase sid := by
        cases hok
        rfl
      have hout : sid ∉ p2.subscribers := by
        rw [hp2]
        exact hinv.2.not_mem_erase
      simp [StockDataPublisher.notify, hout]
    · rw [if_neg h] at hok
      cases hok

/-- Witness for claim C8 discharging its hypothesis at a concrete input: add
one subscriber (id 1), remove it, and observe `notify( 1, _ )` fail. -/
theorem c8_subscriber_ids_witness :
    (pubRun StockDataPublisher.init [PubOp.add false]).removeSubscriber 1
      = Except.ok (StockDataPublisher.mk 2 [])
    ∧ (StockDataPublisher.mk 2 [] : StockDataPublisher).notify 1
      = Except.error (PubErr.notifyNotFound 1) := by
  have h1 : (pubRun StockDataPublisher.init [PubOp.add false]).removeSubscriber 1
      = Except.ok (StockDataPublisher.mk 2 []) := by
    simp [pubRun, pubApply, StockDataPublisher.init, StockDataPublisher.addSubscriber,
      StockDataPublisher.removeSubscriber]
  exact ⟨h1, c8_subscriber_ids.2 [PubOp.add false] 1 (StockDataPublisher.mk 2 []) h1⟩

/-- Set difference `a - b` of Python sets of instrument names, as a list with
Python set-membership semantics. -/
def ldiff (a b : List String) : List String := a.filter (fun s => !(b.elem s))

/-- Intersection `a.intersection( b )` of Python sets of instrument names. -/
def linter (a b : List String) : List String := a.filter (fun s => b.elem s)

/-- Union `a.union( b )` of Python sets of instrument names. -/
def lunion (a b : List String) : List String := a ++ b.filter (fun s => !(a.elem s))

theorem mem_ldiff (a b : List String) (s : String) : s ∈ ldiff a b ↔ s ∈ a ∧ s ∉ b := by
  simp [ldiff]

theorem mem_linter (a b : List String) (s : String) : s ∈ linter a b ↔ s ∈ a ∧ s ∈ b := by
  simp [linter]

theorem mem_lunion (a b : List String) (s : String) : s ∈ lunion a b ↔ s ∈ a ∨ s ∈ b := by
  simp [lunion]
  constructor
  · intro h
    rcases h with h | h
    · exact Or.inl h
    · exact Or.inr h.1
  · intro h
    rcases h with h | h
    · exact Or.inl h
    · by_cases ha : s ∈ a
      · exact Or.inl ha
      · exact Or.inr ⟨h, ha⟩

/-- Inputs of one `StockStrategy.adjustPosition` call.  `weights` is the
target-weight series; `suspendingStocks`, `stocksToDelist`,
`stocksCannotBuy` and `stocksCannotSell` are the exclusion sets the source
derives from the injected data source and the reference-price frame
(`getSuspendingStocks( asOfDate )`, the delisted stocks with delist date at or
before the next trading date, `getUpLimitStocks( refPrices )` and
`getDownLimitStocks( refPrices )` respectively); `sellRefPrices`,
`buyRefPrices` and `updateRefPrices` are the resolved reference-price columns
(`S_DQ_CLOSE` unless a column override is given); `prevCloseInfo` is the
previous close used for the total-asset valuation. -/
structure AdjInput where
  weights : List (String × ℚ)
  suspendingStocks : List String
  stocksToDelist : List String
  stocksCannotBuy : List String
  stocksCannotSell : List String
  sellRefPrices : String → ℚ
  buyRefPrices : String → ℚ
  updateRefPrices : String → ℚ
  prevCloseInfo : List (String × ℚ)
  positionRate : ℚ
  useWeightCapital : Bool
  normalizeWeights : Bool
  enableSab : Bool

namespace StockStrategy

/-- The weight series after `weights = weights[ weights >= 0 ]` and the
inf/nan drop (vacuous over ℚ). -/
def filteredWeights (inp : AdjInput) : List (String × ℚ) :=
  inp.weights.filter (fun w => decide (0 ≤ w.2))

/-- The weight series after the optional renormalization
`weights = weights / weights.sum()` (applied when nonempty and
`normalizeWeights`). -/
def normedWeights (inp : AdjInput) : List (String × ℚ) :=
  let wf := filteredWeights inp
  if 0 < wf.length ∧ inp.normalizeWeights then
    wf.map (fun w => (w.1, w.2 / (wf.map Prod.snd).sum))
  else wf

/-- Embedding of `stocksToHold = set( weights.index )` (the index survives
filtering and normalization unchanged). -/
def stocksToHold (inp : AdjInput) : List String := (filteredWeights inp).map Prod.fst

/-- Weight lookup `weights.ix[ stock ]` on the processed series. -/
def weightOf (inp : AdjInput) (s : String) : ℚ :=
  (((normedWeights inp).find? (fun w => w.1 == s)).map Prod.snd).getD 0

/-- Embedding of `stocksForceSell = stocksInBook.intersection( stocksToDelist )`. -/
def stocksForceSell (b : PortfolioPosition) (inp : AdjInput) : List String :=
  linter (PortfolioPosition.getStocksInBook b) inp.stocksToDelist

/-- Embedding of the `stocksToSell` computation of `adjustPosition`, both
modes. -/
def stocksToSell (b : PortfolioPosition) (inp : AdjInput) : List String :=
  if inp.enableSab then
    ldiff (ldiff (PortfolioPosition.getStocksInBook b) inp.suspendingStocks) inp.stocksCannotSell
  else
    lunion
      (ldiff (ldiff (ldiff (PortfolioPosition.getStocksInBook b) (stocksToHold inp))
        inp.suspendingStocks) inp.stocksCannotSell)
      (stocksForceSell b inp)

/-- Embedding of the `stocksToBuy` computation of `adjustPosition`, both
modes. -/
def stocksToBuy (b : PortfolioPosition) (inp : AdjInput) : List String :=
  if inp.enableSab then
    ldiff (ldiff (ldiff (stocksToHold inp) inp.suspendingStocks) inp.stocksToDelist)
      inp.stocksCannotBuy
  else
    ldiff (ldiff (ldiff (ldiff (stocksToHold inp) (PortfolioPosition.getStocksInBook b))
      inp.suspendingStocks) inp.stocksToDelist) inp.stocksCannotBuy

/-- Embedding of the `stocksToUpdate` computation of `adjustPosition`, both
modes. -/
def stocksToUpdate (b : PortfolioPosition) (inp : AdjInput) : List String :=
  if inp.enableSab then []
  else
    ldiff (ldiff (ldiff (ldiff (linter (stocksToHold inp) (PortfolioPosition.getStocksInBook b))
      inp.suspendingStocks) inp.stocksToDelist) inp.stocksCannotSell) inp.stocksCannotBuy

/-- Embedding of `totalAsset = positionRate * self.position.getTotalAsset(
refPrices=prevCloseInfo, excludeSuspended=suspendingStocks )`. -/
def availableAsset (b : PortfolioPosition) (inp : AdjInput) : ℚ :=
  inp.positionRate * b.getTotalAsset inp.prevCloseInfo inp.suspendingStocks

/-- Comparison key of the final `sorted( orders, key=lambda o: o.side )`. -/
def sideLe (o1 o2 : Order) : Prop := o1.side ≤ o2.side

instance : DecidableRel sideLe := fun o1 o2 => inferInstanceAs (Decidable (o1.side ≤ o2.side))

instance : IsTotal Order sideLe := ⟨fun o1 o2 => le_total o1.side o2.side⟩

instance : IsTrans Order sideLe := ⟨fun _ _ _ h1 h2 => le_trans h1 h2⟩

/-- Embedding of `StockStrategy.adjustPosition`: the sell orders (full held
volume at the sell reference price), the buy orders (lot-rounded
`monetaryVolume / vwap`), the update orders (only the nonzero lot-rounded
delta against the current holding), concatenated in source order and finally
sorted by side (Python sorted is stable; ascending side puts SELL before
BUY). -/
def adjustPosition (b : PortfolioPosition) (inp : AdjInput) : List Order :=
  let totalAsset := availableAsset b inp
  let sells := (stocksToSell b inp).map (fun s =>
    Order.mk s Order.SELL (b.getPosition s) (inp.sellRefPrices s) 0 none)
  let buys := (stocksToBuy b inp).map (fun s =>
    let monetaryVolume := if inp.useWeightCapital then weightOf inp s
      else totalAsset * weightOf inp s
    let vwap := inp.buyRefPrices s
    Order.mk s Order.BUY (UtilStock.roundVolume (monetaryVolume / vwap) 100) vwap 0 none)
  let updates := (stocksToUpdate b inp).filterMap (fun s =>
    let monetaryVolume := if inp.useWeightCapital then weightOf inp s
      else totalAsset * weightOf inp s
    let vwap := inp.updateRefPrices s
    let targetVolume := UtilStock.roundVolume (monetaryVolume / vwap) 100
    let diffVolume := targetVolume - b.getPosition s
    if diffVolume = 0 then none
    else if 0 < diffVolume then some (Order.mk s Order.BUY diffVolume vwap 0 none)
    else some (Order.mk s Order.SELL (-diffVolume) vwap 0 none))
  ((sells ++ buys) ++ updates).insertionSort sideLe

end StockStrategy

/-- Definition following the words of claim C1 (and the spec sentence it
quotes), to be compared with the source-derived sell bucket: sell = held ∧
(not targeted ∨ suspended ∨ at down-limit ∨ force-sold by imminent
delisting). -/
def claimSellPred (b : PortfolioPosition) (inp : AdjInput) (s : String) : Prop :=
  s ∈ PortfolioPosition.getStocksInBook b ∧
    (s ∉ StockStrategy.stocksToHold inp ∨ s ∈ inp.suspendingStocks ∨ s ∈ inp.stocksCannotSell
      ∨ (s ∈ PortfolioPosition.getStocksInBook b ∧ s ∈ inp.stocksToDelist))

/-- Counterexample for claim C1 as stated: instrument A is held, targeted and
suspended (not delisted, at no limit).  The claim formula puts A in the sell
set (held ∧ suspended), but the source computes
`stocksInBook - stocksToHold - suspendingStocks - stocksCannotSell ∪
forceSell`, which drops the suspended A — the code sell bucket is empty. -/
theorem c1_sell_set_counterexample :
    claimSellPred (PortfolioPosition.mk 0 [("A", BookPos.mk 10 100)])
        (AdjInput.mk [("A", 1)] ["A"] [] [] [] (fun _ => 10) (fun _ => 10) (fun _ => 10)
          [] 1 false true false) "A"
    ∧ "A" ∉ StockStrategy.stocksToSell (PortfolioPosition.mk 0 [("A", BookPos.mk 10 100)])
        (AdjInput.mk [("A", 1)] ["A"] [] [] [] (fun _ => 10) (fun _ => 10) (fun _ => 10)
          [] 1 false true false) := by
  constructor
  · refine ⟨?_, Or.inr (Or.inl ?_)⟩
    · simp [PortfolioPosition.getStocksInBook]
    · simp
  · simp [StockStrategy.stocksToSell, StockStrategy.stocksForceSell, mem_lunion, mem_ldiff,
      mem_linter, PortfolioPosition.getStocksInBook]

/-- Claim C1 amended: in the ordinary (non sell-all-before-buy) mode the
update and buy buckets are exactly as the claim states them, while the sell
bucket is `(held ∧ not targeted ∧ not suspended ∧ not at down-limit) ∪
(held ∧ imminently delisted)` — a held instrument that is suspended or at
down-limit (and not delisted) is not sold, and a targeted held instrument is
only sold when it is force-sold by imminent delisting. -/
theorem c1_bucket_partition_amended :
    ∀ (b : PortfolioPosition) (inp : AdjInput), inp.enableSab = false →
      (∀ s : String, s ∈ StockStrategy.stocksToSell b inp ↔
        s ∈ PortfolioPosition.getStocksInBook b ∧
          ((s ∉ StockStrategy.stocksToHold inp ∧ s ∉ inp.suspendingStocks
              ∧ s ∉ inp.stocksCannotSell)
            ∨ s ∈ inp.stocksToDelist))
      ∧ (∀ s : String, s ∈ StockStrategy.stocksToBuy b inp ↔
        s ∈ StockStrategy.stocksToHold inp ∧ s ∉ PortfolioPosition.getStocksInBook b
          ∧ s ∉ inp.suspendingStocks ∧ s ∉ inp.stocksToDelist ∧ s ∉ inp.stocksCannotBuy)
      ∧ (∀ s : String, s ∈ StockStrategy.stocksToUpdate b inp ↔
        s ∈ StockStrategy.stocksToHold inp ∧ s ∈ PortfolioPosition.getStocksInBook b
          ∧ s ∉ inp.suspendingStocks ∧ s ∉ inp.stocksToDelist ∧ s ∉ inp.stocksCannotSell
          ∧ s ∉ inp.stocksCannotBuy) := by
  intro b inp h
  refine ⟨?_, ?_, ?_⟩
  · intro s
    simp only [StockStrategy.stocksToSell, h, if_neg Bool.false_ne_true,
      StockStrategy.stocksForceSell, mem_lunion, mem_ldiff, mem_linter]
    tauto
  · intro s
    simp only [StockStrategy.stocksToBuy, h, if_neg Bool.false_ne_true, mem_ldiff]
    tauto
  · intro s
    simp only [StockStrategy.stocksToUpdate, h, if_neg Bool.false_ne_true, mem_ldiff,
      mem_linter]
    tauto

/-- Witness for the amended claim C1 discharging its hypothesis at a concrete
input. -/
theorem c1_bucket_partition_witness :
    (AdjInput.mk [("A", 1)] ["A"] [] [] [] (fun _ => (10 : ℚ)) (fun _ => 10) (fun _ => 10)
        [] 1 false true false).enableSab = false
    ∧ (("A" : String) ∈ StockStrategy.stocksToSell
          (PortfolioPosition.mk 0 [("A", BookPos.mk 10 100)])
          (AdjInput.mk [("A", 1)] ["A"] [] [] [] (fun _ => 10) (fun _ => 10) (fun _ => 10)
            [] 1 false true false) ↔
        ("A" : String) ∈ PortfolioPosition.getStocksInBook
            (PortfolioPosition.mk 0 [("A", BookPos.mk 10 100)])
          ∧ ((("A" : String) ∉ StockStrategy.stocksToHold
                (AdjInput.mk [("A", 1)] ["A"] [] [] [] (fun _ => 10) (fun _ => 10)
                  (fun _ => 10) [] 1 false true false)
              ∧ ("A" : String) ∉ ["A"] ∧ ("A" : String) ∉ ([] : List String))
            ∨ ("A" : String) ∈ ([] : List String))) :=
  ⟨rfl, (c1_bucket_partition_amended (PortfolioPosition.mk 0 [("A", BookPos.mk 10 100)])
    (AdjInput.mk [("A", 1)] ["A"] [] [] [] (fun _ => 10) (fun _ => 10) (fun _ => 10)
      [] 1 false true false) rfl).1 "A"⟩

/-- Claim C7: in every emitted order list no BUY (side `1`) ever precedes a
SELL (side `-1`) — the final sort by side puts all sells first.  The closing
conjunct is the concrete spec scenario: moving fully out of held A into new B
emits the A sell before the B buy. -/
theorem c7_sell_before_buy :
    (∀ (b : PortfolioPosition) (inp : AdjInput),
      (StockStrategy.adjustPosition b inp).Pairwise
        (fun o1 o2 => ¬(o1.side = Order.BUY ∧ o2.side = Order.SELL)))
    ∧ StockStrategy.adjustPosition (PortfolioPosition.mk 0 [("A", BookPos.mk 10 100)])
        (AdjInput.mk [("B", 1)] [] [] [] [] (fun _ => 10) (fun _ => 5) (fun _ => 5)
          [("A", 10)] 1 false true false)
      = [Order.mk "A" Order.SELL 100 10 0 none, Order.mk "B" Order.BUY 200 5 0 none] := by
  constructor
  · intro b inp
    have hs : (StockStrategy.adjustPosition b inp).Pairwise StockStrategy.sideLe := by
      unfold StockStrategy.adjustPosition
      exact List.sorted_insertionSort StockStrategy.sideLe _
    refine hs.imp ?_
    intro o1 o2 h12 hc
    have h1 := hc.1
    have h2 := hc.2
    unfold StockStrategy.sideLe at h12
    rw [h1, h2] at h12
    norm_num [Order.BUY, Order.SELL] at h12
  · have hsell : StockStrategy.stocksToSell (PortfolioPosition.mk 0 [("A", BookPos.mk 10 100)])
        (AdjInput.mk [("B", 1)] [] [] [] [] (fun _ => 10) (fun _ => 5) (fun _ => 5)
          [("A", 10)] 1 false true false) = ["A"] := by
      simp [StockStrategy.stocksToSell, StockStrategy.stocksForceSell, ldiff, lunion, linter,
        PortfolioPosition.getStocksInBook, StockStrategy.stocksToHold,
        StockStrategy.filteredWeights]
    have hbuy : StockStrategy.stocksToBuy (PortfolioPosition.mk 0 [("A", BookPos.mk 10 100)])
        (AdjInput.mk [("B", 1)] [] [] [] [] (fun _ => 10) (fun _ => 5) (fun _ => 5)
          [("A", 10)] 1 false true false) = ["B"] := by
      simp [StockStrategy.stocksToBuy, ldiff, PortfolioPosition.getStocksInBook,
        StockStrategy.stocksToHold, StockStrategy.filteredWeights]
    have hupd : StockStrategy.stocksToUpdate (PortfolioPosition.mk 0 [("A", BookPos.mk 10 100)])
        (AdjInput.mk [("B", 1)] [] [] [] [] (fun _ => 10) (fun _ => 5) (fun _ => 5)
          [("A", 10)] 1 false true false) = [] := by
      simp [StockStrategy.stocksToUpdate, ldiff, linter, PortfolioPosition.getStocksInBook,
        StockStrategy.stocksToHold, StockStrategy.filteredWeights]
    have htotal : StockStrategy.availableAsset (PortfolioPosition.mk 0 [("A", BookPos.mk 10 100)])
        (AdjInput.mk [("B", 1)] [] [] [] [] (fun _ => 10) (fun _ => 5) (fun _ => 5)
          [("A", 10)] 1 false true false) = 1000 := by
      simp [StockStrategy.availableAsset, PortfolioPosition.getTotalAsset]
      norm_num
    have hweight : StockStrategy.weightOf
        (AdjInput.mk [("B", 1)] [] [] [] [] (fun _ => (10 : ℚ)) (fun _ => 5) (fun _ => 5)
          [("A", 10)] 1 false true false) "B" = 1 := by
      simp [StockStrategy.weightOf, StockStrategy.normedWeights, StockStrategy.filteredWeights]
    have hround : UtilStock.roundVolume (((1000 : ℚ) * 1) / 5) 100 = 200 := by
      norm_num [UtilStock.roundVolume, ratTrunc]
    have hpos : PortfolioPosition.getPosition (PortfolioPosition.mk 0 [("A", BookPos.mk 10 100)])
        "A" = 100 := by
      simp [PortfolioPosition.getPosition, PortfolioPosition.posLookup]
    simp only [StockStrategy.adjustPosition, hsell, hbuy, hupd, htotal, hweight, hround, hpos]
    simp [List.insertionSort, List.orderedInsert, StockStrategy.sideLe, Order.SELL, Order.BUY,
      hround]
    refine ⟨hpos, ?_⟩
    rw [hweight]
    exact hround

/-- One input row of the backtest data feed: instrument, trading date,
timestamp within the date, and a payload price.  Dates and timestamps are the
fixed-width zero-padded digit strings of the source (YYYYMMDD and
YYYYMMDDHHMM, compared lexicographically there), modelled order-faithfully as
naturals. -/
structure Row where
  secId : String
  tradeDate : ℕ
  timestamp : ℕ
  price : ℚ
  deriving DecidableEq

/-- One observable step of `BacktestDataPublisher.connect`: an
`openMarket( date )` call on every subscriber, or a `notifyAll( batch )`
delivery of one timestamp group (delivered synchronously to every subscriber
in trace order). -/
inductive ReplayEvent where
  | openMarket (d : ℕ) : ReplayEvent
  | batch (rows : List Row) : ReplayEvent
  deriving DecidableEq

namespace BacktestDataPublisher

/-- The rows of one trading date, in input order (the pandas groupby group). -/
def rowsOfDate (rows : List Row) (d : ℕ) : List Row :=
  rows.filter (fun r => r.tradeDate == d)

/-- The rows of one timestamp group within a date, in input order. -/
def rowsAt (rows : List Row) (d ts : ℕ) : List Row :=
  rows.filter (fun r => r.tradeDate == d && r.timestamp == ts)

/-- Embedding of `dates = sorted( groupedData.groups.keys() )`: the distinct
trading dates in ascending order. -/
def datesOf (rows : List Row) : List ℕ :=
  ((rows.map (fun r => r.tradeDate)).dedup).insertionSort (fun a b => a ≤ b)

/-- The distinct timestamps of one date in ascending order (pandas `groupby`
iterates its keys sorted). -/
def tsOf (rows : List Row) (d : ℕ) : List ℕ :=
  (((rowsOfDate rows d).map (fun r => r.timestamp)).dedup).insertionSort (fun a b => a ≤ b)

/-- The events of one date of the replay loop: `openMarket( date )` followed
by one `notifyAll` per distinct timestamp of that date in ascending order,
each carrying all rows of that timestamp. -/
def daySegment (rows : List Row) (d : ℕ) : List ReplayEvent :=
  ReplayEvent.openMarket d ::
    (tsOf rows d).map (fun ts => ReplayEvent.batch (rowsAt rows d ts))

/-- Embedding of the replay loop of `BacktestDataPublisher.connect`: the date
segments in ascending date order. -/
def replayTrace (rows : List Row) : List ReplayEvent :=
  ((datesOf rows).map (daySegment rows)).flatten

theorem mem_rowsAt (rows : List Row) (d ts : ℕ) (r : Row) :
    r ∈ rowsAt rows d ts ↔ r ∈ rows ∧ r.tradeDate = d ∧ r.timestamp = ts := by
  simp [rowsAt]

theorem mem_datesOf (rows : List Row) (d : ℕ) :
    d ∈ datesOf rows ↔ ∃ r ∈ rows, r.tradeDate = d := by
  simp [datesOf, List.mem_insertionSort, List.mem_dedup]

theorem mem_tsOf (rows : List Row) (d ts : ℕ) :
    ts ∈ tsOf rows d ↔ ∃ r ∈ rows, r.tradeDate = d ∧ r.timestamp = ts := by
  simp [tsOf, rowsOfDate, List.mem_insertionSort, List.mem_dedup]
  tauto

theorem datesOf_sorted_lt (rows : List Row) :
    (datesOf rows).Pairwise (fun a b => a < b) := by
  unfold datesOf
  have hsorted := List.sorted_insertionSort (fun a b : ℕ => a ≤ b)
    ((rows.map (fun r => r.tradeDate)).dedup)
  have hnodup := ((List.perm_insertionSort (fun a b : ℕ => a ≤ b)
    ((rows.map (fun r => r.tradeDate)).dedup)).symm).nodup
    (List.nodup_dedup _)
  have hcomb := List.Pairwise.and hsorted hnodup
  exact hcomb.imp (fun h => lt_of_le_of_ne h.1 h.2)

theorem tsOf_sorted_lt (rows : List Row) (d : ℕ) :
    (tsOf rows d).Pairwise (fun a b => a < b) := by
  unfold tsOf
  have hsorted := List.sorted_insertionSort (fun a b : ℕ => a ≤ b)
    (((rowsOfDate rows d).map (fun r => r.timestamp)).dedup)
  have hnodup := ((List.perm_insertionSort (fun a b : ℕ => a ≤ b)
    (((rowsOfDate rows d).map (fun r => r.timestamp)).dedup)).symm).nodup
    (List.nodup_dedup _)
  have hcomb := List.Pairwise.and hsorted hnodup
  exact hcomb.imp (fun h => lt_of_le_of_ne h.1 h.2)

theorem datesOf_nodup (rows : List Row) : (datesOf rows).Nodup :=
  (datesOf_sorted_lt rows).imp (fun h => ne_of_lt h)

theorem tsOf_nodup (rows : List Row) (d : ℕ) : (tsOf rows d).Nodup :=
  (tsOf_sorted_lt rows d).imp (fun h => ne_of_lt h)

theorem rowsAt_ne_nil (rows : List Row) (d ts : ℕ) (h : ts ∈ tsOf rows d) :
    rowsAt rows d ts ≠ [] := by
  rw [mem_tsOf] at h
  obtain ⟨r, hr, hd, hts⟩ := h
  exact List.ne_nil_of_mem ((mem_rowsAt rows d ts r).mpr ⟨hr, hd, hts⟩)

theorem rowsAt_keys (rows : List Row) (d ts d2 ts2 : ℕ)
    (heq : rowsAt rows d ts = rowsAt rows d2 ts2) (hne : rowsAt rows d ts ≠ []) :
    d = d2 ∧ ts = ts2 := by
  obtain ⟨r, hr⟩ := List.exists_mem_of_ne_nil _ hne
  have h1 := (mem_rowsAt rows d ts r).mp hr
  have h2 := (mem_rowsAt rows d2 ts2 r).mp (heq ▸ hr)
  exact ⟨h1.2.1.symm.trans h2.2.1, h1.2.2.symm.trans h2.2.2⟩

theorem mem_daySegment (rows : List Row) (d : ℕ) (e : ReplayEvent) :
    e ∈ daySegment rows d ↔
      e = ReplayEvent.openMarket d
        ∨ ∃ ts ∈ tsOf rows d, e = ReplayEvent.batch (rowsAt rows d ts) := by
  simp only [daySegment, List.mem_cons, List.mem_map]
  constructor
  · intro h
    rcases h with h | ⟨ts, hts, h⟩
    · exact Or.inl h
    · exact Or.inr ⟨ts, hts, h.symm⟩
  · intro h
    rcases h with h | ⟨ts, hts, h⟩
    · exact Or.inl h
    · exact Or.inr ⟨ts, hts, h.symm⟩

theorem countP_decide_eq_one {l : List ℕ} {a : ℕ} (hnd : l.Nodup) (hmem : a ∈ l) :
    l.countP (fun x => decide (x = a)) = 1 := by
  induction l with
  | nil => cases hmem
  | cons x t ih =>
      rw [List.nodup_cons] at hnd
      rw [List.countP_cons]
      rcases List.mem_cons.mp hmem with h | h
      · subst h
        have hz : t.countP (fun y => decide (y = a)) = 0 := by
          rw [List.countP_eq_zero]
          intro b hb hbx
          simp at hbx
          subst hbx
          exact hnd.1 hb
        simp [hz]
      · have hxa : (decide (x = a)) = false := decide_eq_false (fun hc => hnd.1 (hc ▸ h))
        simp [hxa]
        exact ih hnd.2 h

theorem sum_map_ite_eq_one {l : List ℕ} {a : ℕ} (hnd : l.Nodup) (hmem : a ∈ l) :
    (l.map (fun d => if d = a then (1 : ℕ) else 0)).sum = 1 := by
  induction l with
  | nil => cases hmem
  | cons x t ih =>
      rw [List.nodup_cons] at hnd
      rcases List.mem_cons.mp hmem with h | h
      · subst h
        have hz : (t.map (fun d => if d = a then (1 : ℕ) else 0)).sum = 0 := by
          apply List.sum_eq_zero
          intro y hy
          rw [List.mem_map] at hy
          obtain ⟨d, hd, hdy⟩ := hy
          rw [← hdy, if_neg (fun hc : d = a => hnd.1 (hc ▸ hd))]
        simp [hz]
      · have hxa : ¬ x = a := fun hc => hnd.1 (hc ▸ h)
        simp only [List.map_cons, List.sum_cons, if_neg hxa]
        rw [ih hnd.2 h]

end BacktestDataPublisher

/-- Claim C9: in the trace of `BacktestDataPublisher.connect` (which delivers
every event synchronously to every subscriber in trace order), (1) distinct
data batches carry strictly increasing `(date, timestamp)` keys, so no
subscriber observes data out of order; (2) no batch carrying a row of date
`d` ever precedes the `openMarket( d )` event, and (3) `openMarket( d )` is
present whenever some batch carries a row of date `d` — together: market open
is delivered before the first data batch of its date; (4) every delivered
batch is exactly the set of input rows sharing one `(date, timestamp)` key
and is nonempty; and (5) `notifyAll` fires exactly once per distinct
`(date, timestamp)` key of the input. -/
theorem c9_replay_order :
    ∀ rows : List Row,
      ((BacktestDataPublisher.replayTrace rows).Pairwise (fun e1 e2 =>
        ∀ b1 b2, e1 = ReplayEvent.batch b1 → e2 = ReplayEvent.batch b2 →
          ∀ r1 ∈ b1, ∀ r2 ∈ b2,
            r1.tradeDate < r2.tradeDate
              ∨ (r1.tradeDate = r2.tradeDate ∧ r1.timestamp < r2.timestamp)))
      ∧ ((BacktestDataPublisher.replayTrace rows).Pairwise (fun e1 e2 =>
        ∀ b d, e1 = ReplayEvent.batch b → e2 = ReplayEvent.openMarket d →
          ∀ r ∈ b, r.tradeDate ≠ d))
      ∧ (∀ b, ReplayEvent.batch b ∈ BacktestDataPublisher.replayTrace rows →
          ∀ r ∈ b, ReplayEvent.openMarket r.tradeDate ∈ BacktestDataPublisher.replayTrace rows)
      ∧ (∀ b, ReplayEvent.batch b ∈ BacktestDataPublisher.replayTrace rows →
          ∃ d ts, b = BacktestDataPublisher.rowsAt rows d ts ∧ b ≠ [])
      ∧ (∀ r ∈ rows,
          (BacktestDataPublisher.replayTrace rows).countP
            (fun e => decide (e = ReplayEvent.batch
              (BacktestDataPublisher.rowsAt rows r.tradeDate r.timestamp))) = 1) := by
  intro rows
  refine ⟨?parta, ?partb, ?partopen, ?partc1, ?partc2⟩
  case parta =>
    unfold BacktestDataPublisher.replayTrace
    rw [List.pairwise_flatten]
    constructor
    · intro l hl
      rw [List.mem_map] at hl
      obtain ⟨d, hd, rfl⟩ := hl
      rw [BacktestDataPublisher.daySegment, List.pairwise_cons]
      constructor
      · intro e he b1 b2 h1 h2
        exact ReplayEvent.noConfusion h1
      · rw [List.pairwise_map]
        refine (BacktestDataPublisher.tsOf_sorted_lt rows d).imp ?_
        intro ts1 ts2 hlt b1 b2 h1 h2 r1 hr1 r2 hr2
        injection h1 with h1
        injection h2 with h2
        subst h1
        subst h2
        have k1 := (BacktestDataPublisher.mem_rowsAt rows d ts1 r1).mp hr1
        have k2 := (BacktestDataPublisher.mem_rowsAt rows d ts2 r2).mp hr2
        right
        refine ⟨k1.2.1.trans k2.2.1.symm, ?_⟩
        rw [k1.2.2, k2.2.2]
        exact hlt
    · rw [List.pairwise_map]
      refine (BacktestDataPublisher.datesOf_sorted_lt rows).imp ?_
      intro d1 d2 hlt x hx y hy b1 b2 h1 h2 r1 hr1 r2 hr2
      subst h1
      subst h2
      have hx2 := (BacktestDataPublisher.mem_daySegment rows d1 _).mp hx
      have hy2 := (BacktestDataPublisher.mem_daySegment rows d2 _).mp hy
      rcases hx2 with hx2 | ⟨ts1, hts1, hx2⟩
      · exact ReplayEvent.noConfusion hx2
      · rcases hy2 with hy2 | ⟨ts2, hts2, hy2⟩
        · exact ReplayEvent.noConfusion hy2
        · injection hx2 with hx2
          injection hy2 with hy2
          subst hx2
          subst hy2
          have k1 := (BacktestDataPublisher.mem_rowsAt rows d1 ts1 r1).mp hr1
          have k2 := (BacktestDataPublisher.mem_rowsAt rows d2 ts2 r2).mp hr2
          left
          rw [k1.2.1, k2.2.1]
          exact hlt
  case partb =>
    unfold BacktestDataPublisher.replayTrace
    rw [List.pairwise_flatten]
    constructor
    · intro l hl
      rw [List.mem_map] at hl
      obtain ⟨d, hd, rfl⟩ := hl
      rw [BacktestDataPublisher.daySegment, List.pairwise_cons]
      constructor
      · intro e he b d2 h1 h2
        exact ReplayEvent.noConfusion h1
      · rw [List.pairwise_map]
        refine (BacktestDataPublisher.tsOf_sorted_lt rows d).imp ?_
        intro ts1 ts2 hlt b d2 h1 h2
        exact ReplayEvent.noConfusion h2
    · rw [List.pairwise_map]
      refine (BacktestDataPublisher.datesOf_sorted_lt rows).imp ?_
      intro d1 d2 hlt x hx y hy b d2x h1 h2 r hr
      subst h1
      subst h2
      have hx2 := (BacktestDataPublisher.mem_daySegment rows d1 _).mp hx
      have hy2 := (BacktestDataPublisher.mem_daySegment rows d2 _).mp hy
      rcases hy2 with hy2 | ⟨ts2, hts2, hy2⟩
      · injection hy2 with hy2
        subst hy2
        rcases hx2 with hx2 | ⟨ts1, hts1, hx2⟩
        · exact ReplayEvent.noConfusion hx2
        · injection hx2 with hx2
          subst hx2
          have k1 := (BacktestDataPublisher.mem_rowsAt rows d1 ts1 r).mp hr
          rw [k1.2.1]
          exact ne_of_lt hlt
      · exact ReplayEvent.noConfusion hy2
  case partopen =>
    intro b hb r hr
    unfold BacktestDataPublisher.replayTrace at hb ⊢
    rw [List.mem_flatten] at hb
    obtain ⟨l, hl, hbl⟩ := hb
    rw [List.mem_map] at hl
    obtain ⟨d, hd, rfl⟩ := hl
    have hb2 := (BacktestDataPublisher.mem_daySegment rows d _).mp hbl
    rcases hb2 with hb2 | ⟨ts, hts, hb2⟩
    · exact ReplayEvent.noConfusion hb2
    · injection hb2 with hb2
      subst hb2
      have k := (BacktestDataPublisher.mem_rowsAt rows d ts r).mp hr
      rw [List.mem_flatten]
      refine ⟨BacktestDataPublisher.daySegment rows d, List.mem_map.mpr ⟨d, hd, rfl⟩, ?_⟩
      rw [k.2.1]
      exact List.mem_cons_self _ _
  case partc1 =>
    intro b hb
    unfold BacktestDataPublisher.replayTrace at hb
    rw [List.mem_flatten] at hb
    obtain ⟨l, hl, hbl⟩ := hb
    rw [List.mem_map] at hl
    obtain ⟨d, hd, rfl⟩ := hl
    have hb2 := (BacktestDataPublisher.mem_daySegment rows d _).mp hbl
    rcases hb2 with hb2 | ⟨ts, hts, hb2⟩
    · exact ReplayEvent.noConfusion hb2
    · injection hb2 with hb2
      subst hb2
      exact ⟨d, ts, rfl, BacktestDataPublisher.rowsAt_ne_nil rows d ts hts⟩
  case partc2 =>
    intro r hr
    have hd0 : r.tradeDate ∈ BacktestDataPublisher.datesOf rows :=
      (BacktestDataPublisher.mem_datesOf rows _).mpr ⟨r, hr, rfl⟩
    have hts0 : r.timestamp ∈ BacktestDataPublisher.tsOf rows r.tradeDate :=
      (BacktestDataPublisher.mem_tsOf rows _ _).mpr ⟨r, hr, rfl, rfl⟩
    have htne : BacktestDataPublisher.rowsAt rows r.tradeDate r.timestamp ≠ [] :=
      BacktestDataPublisher.rowsAt_ne_nil rows _ _ hts0
    unfold BacktestDataPublisher.replayTrace
    rw [List.countP_flatten, List.map_map]
    have hseg : ∀ d ∈ BacktestDataPublisher.datesOf rows,
        ((List.countP (fun e => decide (e = ReplayEvent.batch
            (BacktestDataPublisher.rowsAt rows r.tradeDate r.timestamp))))
          ∘ BacktestDataPublisher.daySegment rows) d
          = if d = r.tradeDate then 1 else 0 := by
      intro d hd
      simp only [Function.comp]
      rw [BacktestDataPublisher.daySegment]
      rw [List.countP_cons]
      have hno : ¬ (ReplayEvent.openMarket d = ReplayEvent.batch
          (BacktestDataPublisher.rowsAt rows r.tradeDate r.timestamp)) :=
        fun hc => ReplayEvent.noConfusion hc
      simp only [decide_eq_true_eq]
      rw [if_neg hno, Nat.add_zero]
      rw [List.countP_map]
      by_cases hdd : d = r.tradeDate
      · subst hdd
        rw [if_pos rfl]
        have hcong : List.countP ((fun e => decide (e = ReplayEvent.batch
            (BacktestDataPublisher.rowsAt rows r.tradeDate r.timestamp)))
              ∘ (fun ts => ReplayEvent.batch (BacktestDataPublisher.rowsAt rows r.tradeDate ts)))
            (BacktestDataPublisher.tsOf rows r.tradeDate)
            = List.countP (fun ts => decide (ts = r.timestamp))
                (BacktestDataPublisher.tsOf rows r.tradeDate) := by
          apply List.countP_congr
          intro ts hts
          simp only [Function.comp, decide_eq_true_eq, ReplayEvent.batch.injEq]
          constructor
          · intro heq
            exact (BacktestDataPublisher.rowsAt_keys rows r.tradeDate ts r.tradeDate
              r.timestamp heq
              (BacktestDataPublisher.rowsAt_ne_nil rows r.tradeDate ts hts)).2
          · intro heq
            rw [heq]
        rw [hcong]
        exact BacktestDataPublisher.countP_decide_eq_one
          (BacktestDataPublisher.tsOf_nodup rows r.tradeDate) hts0
      · rw [if_neg hdd]
        rw [List.countP_eq_zero]
        intro ts hts hp
        simp only [Function.comp, decide_eq_true_eq, ReplayEvent.batch.injEq] at hp
        have hk := BacktestDataPublisher.rowsAt_keys rows d ts r.tradeDate r.timestamp hp
          (BacktestDataPublisher.rowsAt_ne_nil rows d ts hts)
        exact hdd hk.1
    rw [List.map_congr_left hseg]
    exact BacktestDataPublisher.sum_map_ite_eq_one (BacktestDataPublisher.datesOf_nodup rows) hd0

/-- Witness for claim C9 discharging its hypotheses at a concrete input: three
rows over two dates, with two timestamp groups on the first date. -/
theorem c9_replay_order_witness :
    (Row.mk "A" 1 2 10) ∈ [Row.mk "A" 1 2 10, Row.mk "A" 1 1 11, Row.mk "B" 2 1 12]
    ∧ (BacktestDataPublisher.replayTrace
        [Row.mk "A" 1 2 10, Row.mk "A" 1 1 11, Row.mk "B" 2 1 12]).countP
        (fun e => decide (e = ReplayEvent.batch
          (BacktestDataPublisher.rowsAt
            [Row.mk "A" 1 2 10, Row.mk "A" 1 1 11, Row.mk "B" 2 1 12]
            (Row.mk "A" 1 2 10).tradeDate (Row.mk "A" 1 2 10).timestamp))) = 1 :=
  ⟨by decide, (c9_replay_order
      [Row.mk "A" 1 2 10, Row.mk "A" 1 1 11, Row.mk "B" 2 1 12]).2.2.2.2
    (Row.mk "A" 1 2 10) (by decide)⟩

end Arsenal
